import Mathlib

/-!
Verification development for the turkic-api corpus pipeline.

This file gives a shallow embedding, in Lean 4, of the core of the
repository: the language/script label parsing and filter composition of
`src/core/langid.py`, the corpus materializer of
`src/core/corpus_download.py`, and the job-orchestrator state machine of
`src/api/jobs.py` (`process_corpus_impl`).  Python strings are modelled as
Lean `String` (operated on through explicit, kernel-computable char-list
helpers mirroring the exact Python string methods used), floats as `Rat`,
the filesystem and the Redis job-record store as explicit values threaded
through the definitions, and the remote classifier / HTTP endpoints as
abstract inputs.
-/

namespace TurkicApi

/-! ### String helpers mirroring the Python string methods used by the code -/

/-- Characters stripped by Python `str.strip()` (the ASCII portion; the
source code only ever strips ASCII configuration and label strings). -/
def isSpaceChar (c : Char) : Bool :=
  (c = ' ') || (c = '\t') || (c = '\n') || (c = '\r') || (c = '\x0b') || (c = '\x0c')

/-- Python `s.strip()`: drop leading and trailing whitespace. -/
def pyStrip (s : String) : String :=
  String.mk (((s.data.dropWhile isSpaceChar).reverse.dropWhile isSpaceChar).reverse)

/-- Python `s.replace(old, new)` specialised to a single-character `old`
replaced by a single character, as in `s.replace("\n", " ")`. -/
def replaceChar (old new : Char) (s : String) : String :=
  String.mk (s.data.map (fun c => if c = old then new else c))

/-- Python `s[0:1].upper() + s[1:].lower()` (ASCII case mapping, which is
what the three supported script names exercise). -/
def capFirst (s : String) : String :=
  match s.data with
  | [] => ""
  | c :: rest => String.mk (c.toUpper :: rest.map Char.toLower)

/-- One step of Python `str.replace(pat, "")`: fuel-indexed removal of every
occurrence of `pat`, scanning left to right.  `fuel` at least the length of
the list makes it total; the fuel is consumed one character (or one matched
occurrence) at a time. -/
def removeAllFuel (pat : List Char) : Nat → List Char → List Char
  | 0, l => l
  | _ + 1, [] => []
  | fuel + 1, c :: rest =>
    if pat.isPrefixOf (c :: rest) then
      removeAllFuel pat fuel ((c :: rest).drop pat.length)
    else
      c :: removeAllFuel pat fuel rest

/-- Python `s.replace(pat, "")` for a non-empty pattern. -/
def removeAll (pat : String) (s : String) : String :=
  String.mk (removeAllFuel pat.data s.data.length s.data)

/-- Python `label.split("_", 1)` viewed as a search for the first
occurrence of the separator: `none` when the separator is absent,
otherwise the part before it and the part after it. -/
def splitAtFirst (sep : Char) : List Char → Option (List Char × List Char)
  | [] => none
  | c :: rest =>
    if c = sep then some ([], rest)
    else
      match splitAtFirst sep rest with
      | none => none
      | some (a, b) => some (c :: a, b)

/-! ### core/models.py -/

/-- Model of `core.models.ProcessSpec` (a frozen dataclass).  `source` and
`language` are `Literal` enums in the source, modelled as strings guarded by
the same type-guard predicates; `confidence_threshold` is a Python float,
modelled as `Rat`; `max_sentences` is validated as an integer and documented
as positive, modelled as `Nat`. -/
structure ProcessSpec where
  source : String
  language : String
  max_sentences : Nat
  transliterate : Bool
  confidence_threshold : Rat
deriving DecidableEq

/-- Model of `core.models.is_source`. -/
def is_source (v : String) : Bool :=
  (v = "oscar") || (v = "wikipedia")

/-- Model of `core.models.is_language`. -/
def is_language (v : String) : Bool :=
  (v = "kk") || (v = "ky") || (v = "uz") || (v = "tr") || (v = "ug")

/-! ### core/langid.py -/

/-- Model of the `mapping.get(lang_part, lang_part)` lookup inside
`core.langid._parse_label`: the fixed 639-3 to 639-1 table for the five
supported Turkic languages, with unmapped codes passing through. -/
def langMap (l : String) : String :=
  if l = "kaz" then "kk"
  else if l = "kir" then "ky"
  else if l = "tur" then "tr"
  else if l = "uzn" then "uz"
  else if l = "uzs" then "uz"
  else if l = "uig" then "ug"
  else if l = "kk" then "kk"
  else if l = "ky" then "ky"
  else if l = "tr" then "tr"
  else if l = "uz" then "uz"
  else if l = "ug" then "ug"
  else l

/-- The keys of the lookup table in `core.langid._parse_label`. -/
def langMapKeys : List String :=
  ["kaz", "kir", "tur", "uzn", "uzs", "uig", "kk", "ky", "tr", "uz", "ug"]

/-- Model of the split stage of `core.langid._parse_label`: Python
`if "_" in label: label.split("_", 1) else (label, None)`. -/
def splitLabel (label : String) : String × Option String :=
  match splitAtFirst ('_') label.data with
  | none => (label, none)
  | some (a, b) => (String.mk a, some (String.mk b))

/-- Model of `core.langid._parse_label`: strip the `__label__` prefix
(Python `raw.replace("__label__", "")`), split on the first underscore into
language and script parts, and map the language part through the fixed
table. -/
def _parse_label (raw : String) : String × Option String :=
  let label := removeAll ("__label__") raw
  let p := splitLabel label
  (langMap p.1, p.2)

/-- Model of the script normalization performed by
`core.langid.build_lang_script_filter` (lines 105-112): `None` stays `None`,
a blank/whitespace-only script becomes `None`, anything else is
capitalize-first / lowercase-rest of the stripped string. -/
def normalizeScript : Option String → Option String
  | none => none
  | some s =>
    let t := pyStrip s
    if t = "" then none
    else some (capFirst t)

/-- Abstract classifier: `model.predict(text, k=1)` returns a list of labels
and a list of probabilities (the fastText call in the source). -/
def Classifier : Type := String → List String × List Rat

/-- Model of the predicate built by `core.langid.build_lang_script_filter`:
replace newlines by spaces, run the classifier, parse the top label, then
reject on language mismatch, reject on script mismatch when a script filter
is present, and otherwise keep iff the probability clears the threshold. -/
def build_lang_script_filter (model : Classifier) (target_lang : String)
    (script : Option String) (threshold : Rat) : String → Bool :=
  let script_norm := normalizeScript script
  fun text =>
    let r := model (replaceChar ('\n') (' ') text)
    let label := r.1.headD ""
    let prob := r.2.headD 0
    let ls := _parse_label label
    if ls.1 ≠ target_lang then false
    else if script_norm.isSome ∧ ls.2 ≠ script_norm then false
    else decide (threshold ≤ prob)

/-! ### core/corpus_download.py -/

/-- Model of the per-line normalization in `corpus_download._write_lines`:
Python `s.replace("\n", " ").replace("\r", " ").strip()`. -/
def normalizeLine (s : String) : String :=
  pyStrip (replaceChar ('\r') (' ') (replaceChar ('\n') (' ') s))

/-- Loop of `corpus_download._write_lines`: write the normalized line,
increment the count, and stop as soon as `count >= limit`.  Returns the
lines written to the destination file, in order. -/
def writeAux (limit : Nat) : List String → Nat → List String
  | [], _ => []
  | s :: rest, count =>
    normalizeLine s :: (if count + 1 ≥ limit then [] else writeAux limit rest (count + 1))

/-- Model of `corpus_download._write_lines`: the content written to the
destination file for a given source iterator and sentence limit. -/
def _write_lines (lines : List String) (limit : Nat) : List String :=
  writeAux limit lines 0

/-- Canonical corpus cache path `{data_dir}/corpus/{source}_{language}.txt`. -/
def corpusPath (data_dir : String) (spec : ProcessSpec) : String :=
  data_dir ++ "/corpus/" ++ spec.source ++ "_" ++ spec.language ++ ".txt"

/-- Observable outcome of one `ensure_corpus_file` call: the returned path or
raised error, the content at the canonical path after the call (`none` when
the file does not exist), and whether the remote stream was consumed and a
langid filter built. -/
structure EnsureOutcome where
  result : Except String String
  fileAfter : Option (List String)
  usedStream : Bool
  builtFilter : Bool

/-- Model of `corpus_download.ensure_corpus_file`.  `existing` is the content
at the canonical path before the call (`none` when absent), `stream` the
sentences the selected remote streamer would lazily yield, and `keep` the
langid predicate that `build_lang_script_filter` would return.  When the file
exists it is returned immediately; otherwise the stream — filtered when
`confidence_threshold > 0` or a script filter is requested — is written,
bounded by `max_sentences`, and a zero-line write deletes the file and
raises. -/
def ensure_corpus_file (spec : ProcessSpec) (data_dir : String)
    (script : Option String) (existing : Option (List String))
    (stream : List String) (keep : String → Bool) : EnsureOutcome :=
  let path := corpusPath data_dir spec
  if existing.isSome then
    ⟨.ok path, existing, false, false⟩
  else if spec.source ≠ "oscar" ∧ spec.source ≠ "wikipedia" then
    ⟨.error ("Unsupported corpus source: " ++ spec.source), none, false, false⟩
  else
    let source_iter :=
      if 0 < spec.confidence_threshold ∨ script.isSome then stream.filter keep
      else stream
    let written := _write_lines source_iter spec.max_sentences
    if written.length = 0 then
      ⟨.error ("No sentences were written for the requested corpus"), none, true,
        decide (0 < spec.confidence_threshold ∨ script.isSome)⟩
    else
      ⟨.ok path, some written, true,
        decide (0 < spec.confidence_threshold ∨ script.isSome)⟩

/-! ### api/jobs.py — process_corpus_impl -/

/-- Model of the optional-script validation in `process_corpus_impl`
(jobs.py lines 73-86): `None` passes through, a blank string becomes `None`,
anything else is capitalize-first / lowercase-rest and must be one of the
three supported scripts, else a `ValueError` is raised. -/
def validateScript (script_val : Option String) : Except String (Option String) :=
  match script_val with
  | none => .ok none
  | some sv =>
    let s := pyStrip sv
    if s = "" then .ok none
    else
      let norm := capFirst s
      if norm = "Latn" ∨ norm = "Cyrl" ∨ norm = "Arab" then .ok (some norm)
      else .error ("Invalid script; expected Latn, Cyrl, or Arab")

/-- Fields of the Redis job-record hash written by `process_corpus_impl`. -/
inductive Field where
  | status
  | progress
  | message
  | error
  | file_id
  | upload_status
  | updated_at
deriving DecidableEq

/-- One `redis.hset(f"job:{job_id}", mapping={...})` call: the field/value
pairs of the mapping, in source order.  Timestamp values
(`datetime.utcnow().isoformat()`) are abstracted to the placeholder `"ts"`;
no claim inspects them. -/
abbrev Hset := List (Field × String)

/-- The entry hset (jobs.py lines 38-46). -/
def initialHset : Hset :=
  [(.status, "processing"), (.updated_at, "ts"), (.progress, "0"), (.message, "started")]

/-- The failure hsets (download failure and the four upload failure kinds):
each writes exactly status, updated_at, message and error. -/
def failHset (msg err : String) : Hset :=
  [(.status, "failed"), (.updated_at, "ts"), (.message, msg), (.error, err)]

/-- The progress checkpoint hset taken at every 50th written line
(jobs.py lines 124-132). -/
def ckptHset (written : Nat) : Hset :=
  [(.progress, toString (min 99 written)), (.updated_at, "ts"), (.message, "processing")]

/-- The upload-success hset (jobs.py lines 219-225). -/
def fileIdHset (fid : String) : Hset :=
  [(.file_id, fid), (.upload_status, "uploaded")]

/-- The terminal-success hset (jobs.py lines 229-237). -/
def completedHset : Hset :=
  [(.status, "completed"), (.updated_at, "ts"), (.progress, "100"), (.message, "done")]

/-- The hsets issued by the result-writing loop (jobs.py lines 117-132):
one line per streamed corpus line, with a checkpoint at every 50th. -/
def writeLoopHsets : List String → Nat → List Hset
  | [], _ => []
  | _ :: rest, written =>
    let w := written + 1
    (if w % 50 = 0 then [ckptHset w] else []) ++ writeLoopHsets rest w

/-- The `file_id` entry of the upload-response JSON object: absent,
present but not a string, or a string. -/
inductive FileIdVal where
  | absent
  | nonStr
  | str (s : String)
deriving DecidableEq

/-- Shape of the upload-response body as consumed by the orchestrator:
`json.loads` raising, a JSON value that is not an object, or an object with
its `file_id` entry. -/
inductive RespBody where
  | invalidJson
  | nonDict
  | dict (fid : FileIdVal)
deriving DecidableEq

/-- The upload endpoint's HTTP response, abstracted to what the
orchestrator inspects. -/
structure UploadResp where
  statusCode : Nat
  body : RespBody
deriving DecidableEq

/-- How one run of `process_corpus_impl` terminates: a normal return of the
completed summary, or a raised exception (with the exception message). -/
inductive RunResult where
  | completed
  | raised (err : String)
deriving DecidableEq

/-- The hset trace and termination of a run. -/
structure RunTrace where
  hsets : List Hset
  result : RunResult

/-- Whether `json.loads(resp.text)` succeeds. -/
def bodyParses : RespBody → Bool
  | .invalidJson => false
  | .nonDict => true
  | .dict _ => true

/-- The `isinstance(obj, dict)` check: the parsed object when it is a JSON
object, `none` otherwise. -/
def bodyDict : RespBody → Option FileIdVal
  | .invalidJson => none
  | .nonDict => none
  | .dict fid => some fid

/-- The `file_id` check of jobs.py lines 201-218: the stripped value when
`obj.get("file_id")` is a non-blank string, `none` otherwise. -/
def fileIdCheck : FileIdVal → Option String
  | .absent => none
  | .nonStr => none
  | .str s => if pyStrip s = "" then none else some (pyStrip s)

/-- Tail of the upload step once a valid `file_id` was looked for: the
missing-file-id failure, or the success and completion hsets
(jobs.py lines 201-239). -/
def fidTail : Option String → List Hset × RunResult
  | none =>
    ([failHset ("upload_failed") ("missing_file_id")],
      .raised ("missing or invalid file_id in response"))
  | some f => ([fileIdHset f, completedHset], .completed)

/-- Tail of the upload step once the body parsed as JSON: the
non-dict-response failure, or the `file_id` check (jobs.py lines 188-239). -/
def dictTail : Option FileIdVal → List Hset × RunResult
  | none =>
    ([failHset ("upload_failed") ("non_dict_response")],
      .raised ("upload response is not a dict"))
  | some fid => fidTail (fileIdCheck fid)

/-- Model of the upload-and-complete tail of `process_corpus_impl`
(jobs.py lines 134-239): config check, HTTP status check, JSON parse,
JSON-object check, `file_id` check, then the success and completion hsets.
A `json.loads` failure on a 2xx non-JSON body raises without any hset. -/
def uploadHsets (urlCfg keyCfg : String) (resp : UploadResp) : List Hset × RunResult :=
  if pyStrip urlCfg = "" ∨ pyStrip keyCfg = "" then
    ([failHset ("upload_failed") ("config_missing")], .raised ("data-bank configuration missing"))
  else if ¬ (200 ≤ resp.statusCode ∧ resp.statusCode < 300) then
    ([failHset ("upload_failed") ("status_" ++ toString resp.statusCode)],
      .raised ("upload failed with status " ++ toString resp.statusCode))
  else if bodyParses resp.body = false then
    ([], .raised ("json decode error"))
  else
    dictTail (bodyDict resp.body)

/-- Model of one run of `process_corpus_impl` after parameter validation:
the entry hset; then the corpus-materialization step (`ensureRes` is its
outcome, `.error` carrying the exception type name recorded into the job
record); then the result-writing loop over the locally streamed corpus
lines; then the upload tail. -/
def runJob (ensureRes : Except String Unit) (urlCfg keyCfg : String)
    (corpusLines : List String) (resp : UploadResp) : RunTrace :=
  match ensureRes with
  | .error excName =>
    ⟨[initialHset, failHset ("download_failed") excName], .raised excName⟩
  | .ok _ =>
    let up := uploadHsets urlCfg keyCfg resp
    ⟨initialHset :: (writeLoopHsets corpusLines 0 ++ up.1), up.2⟩

/-- Field-merge semantics of `redis.hset`: later pairs overwrite earlier
ones, untouched fields keep their previous value. -/
def applyPair (rec : Field → Option String) (p : Field × String) : Field → Option String :=
  fun f => if f = p.1 then some p.2 else rec f

/-- Apply one hset call to the job record. -/
def applyHset (rec : Field → Option String) (h : Hset) : Field → Option String :=
  h.foldl applyPair rec

/-- Apply a trace of hset calls to the job record. -/
def applyTrace (rec : Field → Option String) (tr : List Hset) : Field → Option String :=
  tr.foldl applyHset rec

/-- The empty job record (no fields present). -/
def emptyRec : Field → Option String := fun _ => none

/-- The job record visible after a run. -/
def finalRec (t : RunTrace) : Field → Option String :=
  applyTrace emptyRec t.hsets

/-- The value an hset writes to the progress field, when it writes one. -/
def progressOf (h : Hset) : Option String :=
  (h.find? (fun p => p.1 = Field.progress)).map Prod.snd

/-- The successive values written to the progress field over a trace. -/
def progressWrites (tr : List Hset) : List String :=
  tr.filterMap progressOf

/-- Upload success as the orchestrator defines it: 2xx status, JSON-object
body, and a `file_id` entry that is a non-blank string. -/
def uploadSucceeded (resp : UploadResp) : Prop :=
  (200 ≤ resp.statusCode ∧ resp.statusCode < 300) ∧
    ∃ s, resp.body = .dict (.str s) ∧ pyStrip s ≠ ""

/-- The numeric progress checkpoints the write loop emits:
`min 99 w` at each written-line count `w` that is a multiple of 50. -/
def natCkpts : List String → Nat → List Nat
  | [], _ => []
  | _ :: rest, written =>
    let w := written + 1
    (if w % 50 = 0 then [min 99 w] else []) ++ natCkpts rest w

/-! ### Helper lemmas -/

/-- The write loop of `_write_lines` takes a prefix of the stream: starting
from `count < limit` it writes the next `limit - count` lines, normalized. -/
theorem writeAux_take (limit : Nat) (l : List String) :
    ∀ count : Nat, count < limit →
      writeAux limit l count = (l.take (limit - count)).map normalizeLine := by
  induction l with
  | nil => intro count hc; simp [writeAux]
  | cons s rest ih =>
    intro count hc
    by_cases hge : count + 1 ≥ limit
    · have h1 : limit - count = 1 := by omega
      simp [writeAux, if_pos hge, h1]
    · have hlt : count + 1 < limit := by omega
      have h2 : limit - count = (limit - (count + 1)) + 1 := by omega
      simp only [writeAux]
      rw [if_neg hge, ih (count + 1) hlt, h2, List.take_succ_cons, List.map_cons]

/-- `_write_lines` with a positive limit writes the normalized `limit`-prefix
of the stream. -/
theorem _write_lines_take (l : List String) (limit : Nat) (h : 0 < limit) :
    _write_lines l limit = (l.take limit).map normalizeLine := by
  have := writeAux_take limit l 0 h
  simpa [_write_lines] using this

/-- Searching a character list for an absent character finds nothing. -/
theorem splitAtFirst_eq_none {sep : Char} :
    ∀ {l : List Char}, sep ∉ l → splitAtFirst sep l = none := by
  intro l
  induction l with
  | nil => intro _; rfl
  | cons c rest ih =>
    intro hmem
    have hc : ¬ c = sep := fun h => hmem (by simp [h])
    have hrest : sep ∉ rest := fun h => hmem (List.mem_cons_of_mem _ h)
    simp [splitAtFirst, hc, ih hrest]

/-! ### Claims about the materializer and the filter -/

/-- C3: when the canonical corpus path already exists, `ensure_corpus_file`
returns it immediately without consuming the streamer or building a filter;
in particular a second call after a successful first call returns the same
path and performs no remote acquisition. -/
theorem c3_idempotent_materialization (spec : ProcessSpec) (data_dir : String)
    (script script' : Option String) (stream stream' : List String)
    (keep keep' : String → Bool) (existing : Option (List String)) :
    (∀ content, existing = some content →
        ensure_corpus_file spec data_dir script existing stream keep
          = ⟨.ok (corpusPath data_dir spec), existing, false, false⟩)
      ∧ (∀ p, (ensure_corpus_file spec data_dir script none stream keep).result = .ok p →
          ensure_corpus_file spec data_dir script'
              ((ensure_corpus_file spec data_dir script none stream keep).fileAfter)
              stream' keep'
            = ⟨.ok p, (ensure_corpus_file spec data_dir script none stream keep).fileAfter,
                false, false⟩) := by
  constructor
  · intro content hc
    subst hc
    simp [ensure_corpus_file]
  · intro p hp
    by_cases hbad : spec.source ≠ "oscar" ∧ spec.source ≠ "wikipedia"
    · simp [ensure_corpus_file, hbad] at hp
    · by_cases hz :
        (_write_lines
            (if 0 < spec.confidence_threshold ∨ script.isSome then stream.filter keep
              else stream)
            spec.max_sentences).length = 0
      · simp [ensure_corpus_file, hbad, hz] at hp
      · simp only [ensure_corpus_file, Option.isSome_none, Bool.false_eq_true, if_false,
          if_neg hbad] at hp ⊢
        simp only [if_neg hz] at hp ⊢
        simp only [Except.ok.injEq] at hp
        simp [ensure_corpus_file, ← hp]

/-- C4: for a stream of surviving sentences and a positive `max_sentences`
limit, the materialized file holds exactly `min limit N` lines, each the
corresponding survivor with newlines and carriage returns replaced by spaces
and trimmed. -/
theorem c4_bounded_write (spec : ProcessSpec) (data_dir : String)
    (script : Option String) (stream : List String) (keep : String → Bool)
    (survivors : List String)
    (hk : 0 < spec.max_sentences)
    (hsrc : spec.source = "oscar" ∨ spec.source = "wikipedia")
    (hs : survivors =
      if 0 < spec.confidence_threshold ∨ script.isSome then stream.filter keep else stream)
    (hne : survivors ≠ []) :
    (ensure_corpus_file spec data_dir script none stream keep).fileAfter
        = some ((survivors.take spec.max_sentences).map normalizeLine)
      ∧ ((ensure_corpus_file spec data_dir script none stream keep).fileAfter.getD []).length
          = min spec.max_sentences survivors.length := by
  have hcond : ¬ (spec.source ≠ "oscar" ∧ spec.source ≠ "wikipedia") := by
    rcases hsrc with h | h <;> simp [h]
  have hwrit : _write_lines survivors spec.max_sentences
      = (survivors.take spec.max_sentences).map normalizeLine :=
    _write_lines_take survivors spec.max_sentences hk
  have hlen : ((survivors.take spec.max_sentences).map normalizeLine).length
      = min spec.max_sentences survivors.length := by
    simp [List.length_take]
  have hpos : 0 < survivors.length := List.length_pos.mpr hne
  have hnz : ¬ (_write_lines survivors spec.max_sentences).length = 0 := by
    rw [hwrit, hlen]
    omega
  subst hs
  constructor
  · simp only [ensure_corpus_file, Option.isSome_none, Bool.false_eq_true, if_false,
      if_neg hcond, if_neg hnz]
    simp [hwrit]
  · simp only [ensure_corpus_file, Option.isSome_none, Bool.false_eq_true, if_false,
      if_neg hcond, if_neg hnz]
    simp [hwrit, hlen]

/-- C5: when the (possibly filtered) stream yields zero surviving sentences,
`ensure_corpus_file` raises the "no sentences" error and the canonical path
does not exist after the call. -/
theorem c5_zero_result_cleanup (spec : ProcessSpec) (data_dir : String)
    (script : Option String) (stream : List String) (keep : String → Bool)
    (hsrc : spec.source = "oscar" ∨ spec.source = "wikipedia")
    (hz : (if 0 < spec.confidence_threshold ∨ script.isSome then stream.filter keep
        else stream) = []) :
    (ensure_corpus_file spec data_dir script none stream keep).result
        = .error ("No sentences were written for the requested corpus")
      ∧ (ensure_corpus_file spec data_dir script none stream keep).fileAfter = none := by
  have hcond : ¬ (spec.source ≠ "oscar" ∧ spec.source ≠ "wikipedia") := by
    rcases hsrc with h | h <;> simp [h]
  have hzero : (_write_lines
      (if 0 < spec.confidence_threshold ∨ script.isSome then stream.filter keep else stream)
      spec.max_sentences).length = 0 := by
    rw [hz]
    simp [_write_lines, writeAux]
  constructor <;>
    simp [ensure_corpus_file, hcond, hzero]

/-- C6: the composed predicate keeps a sentence classified as
`(lang = X, script = Y, prob = p)` iff `X` is the target language, the
script filter is absent or matched by `Y`, and `p` clears the threshold. -/
theorem c6_filter_composition (model : Classifier) (target : String)
    (script : Option String) (threshold : Rat) (text : String)
    (X : String) (Y : Option String) (p : Rat)
    (hpred : _parse_label (((model (replaceChar ('\n') (' ') text)).1).headD "") = (X, Y))
    (hprob : ((model (replaceChar ('\n') (' ') text)).2).headD 0 = p) :
    build_lang_script_filter model target script threshold text = true
      ↔ X = target ∧ (normalizeScript script = none ∨ Y = normalizeScript script)
          ∧ threshold ≤ p := by
  simp only [build_lang_script_filter, hpred, hprob]
  by_cases hX : X = target
  · cases hn : normalizeScript script with
    | none => simp [hX, hn]
    | some sn =>
      by_cases hY : Y = some sn
      · simp [hX, hn, hY]
      · simp [hX, hn, hY]
  · simp [hX]

/-- C7: label parsing strips the `__label__` prefix, splits on the first
underscore into language and script (no underscore yields a null script),
and maps the 3-letter language code through the fixed table, unmapped codes
passing through; in particular `"kaz_Cyrl"` parses to `("kk", "Cyrl")`. -/
theorem c7_label_parsing :
    _parse_label ("__label__kaz_Cyrl") = ("kk", some ("Cyrl"))
      ∧ (∀ label : String, ('_') ∉ label.data → splitLabel label = (label, none))
      ∧ (∀ lang3 : String, lang3 ∉ langMapKeys → langMap lang3 = lang3)
      ∧ langMap ("kaz") = "kk" ∧ langMap ("kir") = "ky" ∧ langMap ("tur") = "tr"
      ∧ langMap ("uzn") = "uz" ∧ langMap ("uzs") = "uz" ∧ langMap ("uig") = "ug" := by
  refine ⟨by decide, ?_, ?_, by decide, by decide, by decide, by decide, by decide, by decide⟩
  · intro label hmem
    simp [splitLabel, splitAtFirst_eq_none hmem]
  · intro lang3 h
    simp only [langMapKeys, List.mem_cons, List.mem_singleton] at h
    push_neg at h
    obtain ⟨h1, h2, h3, h4, h5, h6, h7, h8, h9, h10, h11⟩ := h
    simp [langMap, h1, h2, h3, h4, h5, h6, h7, h8, h9, h10, h11]

/-- C8: script normalization sends null and whitespace-only input to "no
filter" and anything else to capitalize-first / lowercase-rest, and job
validation rejects a normalized script outside the three supported ones. -/
theorem c8_script_normalization :
    normalizeScript none = none
      ∧ (∀ s, pyStrip s = "" →
          normalizeScript (some s) = none ∧ validateScript (some s) = .ok none)
      ∧ (∀ s, pyStrip s ≠ "" → normalizeScript (some s) = some (capFirst (pyStrip s)))
      ∧ normalizeScript (some ("latn")) = some ("Latn")
      ∧ validateScript (some ("latn")) = .ok (some ("Latn"))
      ∧ (∀ s, pyStrip s ≠ "" →
          capFirst (pyStrip s) ≠ "Latn" → capFirst (pyStrip s) ≠ "Cyrl" →
          capFirst (pyStrip s) ≠ "Arab" →
          validateScript (some s) = .error ("Invalid script; expected Latn, Cyrl, or Arab"))
      ∧ (∀ s, pyStrip s ≠ "" →
          (capFirst (pyStrip s) = "Latn" ∨ capFirst (pyStrip s) = "Cyrl"
            ∨ capFirst (pyStrip s) = "Arab") →
          validateScript (some s) = .ok (some (capFirst (pyStrip s)))) := by
  refine ⟨rfl, ?_, ?_, by decide, rfl, ?_, ?_⟩
  · intro s h
    constructor <;> simp [normalizeScript, validateScript, h]
  · intro s h
    simp [normalizeScript, h]
  · intro s h h1 h2 h3
    simp [validateScript, h, h1, h2, h3]
  · intro s h hin
    simp [validateScript, h, hin]

/-! ### Helper lemmas about the job-record trace -/

theorem applyTrace_append (r : Field → Option String) (t1 t2 : List Hset) :
    applyTrace r (t1 ++ t2) = applyTrace (applyTrace r t1) t2 :=
  List.foldl_append _ _ _ _

theorem applyTrace_cons (r : Field → Option String) (h : Hset) (tr : List Hset) :
    applyTrace r (h :: tr) = applyTrace (applyHset r h) tr :=
  List.foldl_cons _ _

/-- Effect of one failure hset on the job record: it sets status, message
and error and leaves progress, file_id and upload_status untouched. -/
theorem applyHset_failHset (r : Field → Option String) (m e : String) :
    applyHset r (failHset m e) Field.status = some ("failed")
      ∧ applyHset r (failHset m e) Field.message = some m
      ∧ applyHset r (failHset m e) Field.error = some e
      ∧ applyHset r (failHset m e) Field.progress = r Field.progress
      ∧ applyHset r (failHset m e) Field.file_id = r Field.file_id
      ∧ applyHset r (failHset m e) Field.upload_status = r Field.upload_status := by
  refine ⟨?_, ?_, ?_, ?_, ?_, ?_⟩ <;> simp [applyHset, failHset, applyPair]

/-- Every hset issued by the write loop is a checkpoint at some line count
`n` that is a positive multiple of 50 within the streamed lines. -/
theorem mem_writeLoopHsets {lines : List String} {w : Nat} {h : Hset}
    (hm : h ∈ writeLoopHsets lines w) :
    ∃ n, h = ckptHset n ∧ w < n ∧ n % 50 = 0 ∧ n ≤ w + lines.length := by
  induction lines generalizing w with
  | nil => simp [writeLoopHsets] at hm
  | cons s rest ih =>
    simp only [writeLoopHsets] at hm
    rcases List.mem_append.mp hm with h1 | h2
    · by_cases h50 : (w + 1) % 50 = 0
      · rw [if_pos h50] at h1
        simp only [List.mem_singleton] at h1
        exact ⟨w + 1, h1, by omega, h50, by simp only [List.length_cons]; omega⟩
      · rw [if_neg h50] at h1
        simp at h1
    · obtain ⟨n, hn, hw, h50, hle⟩ := ih h2
      exact ⟨n, hn, by omega, h50, by simp only [List.length_cons]; omega⟩

/-- The numeric checkpoint values are exactly `min 99 m` for the positive
multiples `m` of 50 within the streamed lines. -/
theorem mem_natCkpts {lines : List String} {w n : Nat} :
    n ∈ natCkpts lines w
      ↔ ∃ m, m % 50 = 0 ∧ w < m ∧ m ≤ w + lines.length ∧ n = min 99 m := by
  induction lines generalizing w with
  | nil =>
    simp only [natCkpts, List.not_mem_nil, false_iff, not_exists]
    intro m
    simp only [List.length_nil, Nat.add_zero]
    omega
  | cons s rest ih =>
    simp only [natCkpts, List.mem_append]
    constructor
    · rintro (h1 | h2)
      · by_cases h50 : (w + 1) % 50 = 0
        · rw [if_pos h50] at h1
          simp only [List.mem_singleton] at h1
          exact ⟨w + 1, h50, by omega, by simp only [List.length_cons]; omega, h1⟩
        · rw [if_neg h50] at h1
          simp at h1
      · obtain ⟨m, h50, hlt, hle, hn⟩ := ih.mp h2
        exact ⟨m, h50, by omega, by simp only [List.length_cons]; omega, hn⟩
    · rintro ⟨m, h50, hlt, hle, hn⟩
      by_cases heq : m = w + 1
      · subst heq
        rw [if_pos h50]
        exact Or.inl (by simp [hn])
      · refine Or.inr (ih.mpr ⟨m, h50, by omega, ?_, hn⟩)
        simp only [List.length_cons] at hle
        omega

/-- Checkpoint values lie between `min 99 (w+1)` and 99. -/
theorem natCkpts_bounds {lines : List String} {w : Nat} :
    ∀ n ∈ natCkpts lines w, min 99 (w + 1) ≤ n ∧ n ≤ 99 := by
  intro n hn
  obtain ⟨m, _, hlt, _, heq⟩ := mem_natCkpts.mp hn
  subst heq
  omega

/-- The checkpoint value sequence is monotonically non-decreasing. -/
theorem natCkpts_pairwise (lines : List String) (w : Nat) :
    (natCkpts lines w).Pairwise (· ≤ ·) := by
  induction lines generalizing w with
  | nil => simp [natCkpts]
  | cons s rest ih =>
    simp only [natCkpts]
    by_cases h50 : (w + 1) % 50 = 0
    · rw [if_pos h50]
      simp only [List.singleton_append, List.pairwise_cons]
      refine ⟨fun b hb => ?_, ih (w + 1)⟩
      have := (natCkpts_bounds b hb).1
      omega
    · rw [if_neg h50]
      simpa using ih (w + 1)

theorem progressOf_initialHset : progressOf initialHset = some ("0") := rfl

theorem progressOf_failHset (m e : String) : progressOf (failHset m e) = none := rfl

theorem progressOf_ckptHset (n : Nat) :
    progressOf (ckptHset n) = some (toString (min 99 n)) := rfl

theorem progressOf_fileIdHset (f : String) : progressOf (fileIdHset f) = none := rfl

theorem progressOf_completedHset : progressOf completedHset = some ("100") := rfl

theorem progressWrites_append (t1 t2 : List Hset) :
    progressWrites (t1 ++ t2) = progressWrites t1 ++ progressWrites t2 :=
  List.filterMap_append _ _ _

/-- The write loop writes exactly the checkpoint values, in order. -/
theorem progressWrites_writeLoop (lines : List String) (w : Nat) :
    progressWrites (writeLoopHsets lines w) = (natCkpts lines w).map toString := by
  induction lines generalizing w with
  | nil => rfl
  | cons s rest ih =>
    simp only [writeLoopHsets, natCkpts]
    by_cases h50 : (w + 1) % 50 = 0
    · rw [if_pos h50, if_pos h50, progressWrites_append, ih]
      simp [progressWrites, progressOf_ckptHset]
    · rw [if_neg h50, if_neg h50]
      simpa using ih (w + 1)

/-- Case analysis on the upload tail: it either issues exactly one failure
hset and raises, raises with no hset (a 2xx body that is not valid JSON), or
records the file id, marks completion, and returns — the last case exactly
when the upload succeeded. -/
theorem bodyDict_some {b : RespBody} {fid : FileIdVal} (h : bodyDict b = some fid) :
    b = .dict fid := by
  cases b with
  | invalidJson => simp [bodyDict] at h
  | nonDict => simp [bodyDict] at h
  | dict f => simp only [bodyDict, Option.some.injEq] at h; rw [h]

theorem fileIdCheck_some {fid : FileIdVal} {f : String} (h : fileIdCheck fid = some f) :
    ∃ s, fid = .str s ∧ pyStrip s ≠ "" ∧ f = pyStrip s := by
  cases fid with
  | absent => simp [fileIdCheck] at h
  | nonStr => simp [fileIdCheck] at h
  | str s =>
    by_cases hs : pyStrip s = ""
    · simp [fileIdCheck, hs] at h
    · simp only [fileIdCheck, if_neg hs, Option.some.injEq] at h
      exact ⟨s, rfl, hs, h.symm⟩

/-- Case analysis on the upload tail: it either issues exactly one failure
hset and raises, raises with no hset (a 2xx body that is not valid JSON), or
records the file id, marks completion, and returns — the last case exactly
when the upload succeeded. -/
theorem uploadHsets_cases (url key : String) (resp : UploadResp) :
    ((∃ m e, (uploadHsets url key resp).1 = [failHset m e])
        ∧ ∃ msg, (uploadHsets url key resp).2 = .raised msg)
      ∨ ((uploadHsets url key resp).1 = []
          ∧ ∃ msg, (uploadHsets url key resp).2 = .raised msg)
      ∨ ((∃ fid, (uploadHsets url key resp).1 = [fileIdHset fid, completedHset])
          ∧ (uploadHsets url key resp).2 = .completed ∧ uploadSucceeded resp) := by
  unfold uploadHsets
  by_cases hc : pyStrip url = "" ∨ pyStrip key = ""
  · rw [if_pos hc]
    exact Or.inl ⟨⟨_, _, rfl⟩, _, rfl⟩
  · rw [if_neg hc]
    by_cases h2 : 200 ≤ resp.statusCode ∧ resp.statusCode < 300
    · rw [if_neg (not_not_intro h2)]
      by_cases hp : bodyParses resp.body = false
      · rw [if_pos hp]
        exact Or.inr (Or.inl ⟨rfl, _, rfl⟩)
      · rw [if_neg hp]
        rcases hd : bodyDict resp.body with _ | fid
        · simp only [dictTail]
          exact Or.inl ⟨⟨_, _, rfl⟩, _, rfl⟩
        · simp only [dictTail]
          rcases hf : fileIdCheck fid with _ | f
          · simp only [fidTail]
            exact Or.inl ⟨⟨_, _, rfl⟩, _, rfl⟩
          · obtain ⟨s, hsf, hne, hfeq⟩ := fileIdCheck_some hf
            refine Or.inr (Or.inr ⟨⟨f, ?_⟩, ?_, h2, s, ?_, hne⟩)
            · rfl
            · rfl
            · rw [bodyDict_some hd, hsf]
    · rw [if_pos h2]
      exact Or.inl ⟨⟨_, _, rfl⟩, _, rfl⟩

/-- A status=completed write can only come from the success branch of the
upload tail. -/
theorem uploadHsets_completed_mem {url key : String} {resp : UploadResp} {h : Hset}
    (hm : h ∈ (uploadHsets url key resp).1)
    (hc : (Field.status, "completed") ∈ h) : uploadSucceeded resp := by
  rcases uploadHsets_cases url key resp with ⟨⟨m, e, h1⟩, _⟩ | ⟨h1, _⟩ | ⟨_, _, hok⟩
  · rw [h1] at hm
    simp only [List.mem_singleton] at hm
    subst hm
    simp [failHset] at hc
  · rw [h1] at hm
    simp at hm
  · exact hok

theorem applyTrace_singleton (r : Field → Option String) (h : Hset) :
    applyTrace r [h] = applyHset r h := rfl

theorem runJob_error_eq (e url key : String) (lines : List String) (resp : UploadResp) :
    runJob (Except.error e) url key lines resp
      = ⟨[initialHset, failHset ("download_failed") e], .raised e⟩ := rfl

theorem runJob_ok_hsets (u : Unit) (url key : String) (lines : List String)
    (resp : UploadResp) :
    (runJob (Except.ok u) url key lines resp).hsets
      = initialHset :: (writeLoopHsets lines 0 ++ (uploadHsets url key resp).1) := rfl

theorem runJob_ok_result (u : Unit) (url key : String) (lines : List String)
    (resp : UploadResp) :
    (runJob (Except.ok u) url key lines resp).result = (uploadHsets url key resp).2 := rfl

theorem progressWrites_cons_some {h : Hset} {v : String} (tr : List Hset)
    (hv : progressOf h = some v) :
    progressWrites (h :: tr) = v :: progressWrites tr := by
  simp [progressWrites, List.filterMap_cons, hv]

theorem progressWrites_cons_none {h : Hset} (tr : List Hset)
    (hv : progressOf h = none) :
    progressWrites (h :: tr) = progressWrites tr := by
  simp [progressWrites, List.filterMap_cons, hv]

/-- Progress values written over a successful-materialization run: the
initial "0", the loop checkpoints, then whatever the upload tail writes. -/
theorem progressWrites_runJob_ok (u : Unit) (url key : String) (lines : List String)
    (resp : UploadResp) :
    progressWrites (runJob (Except.ok u) url key lines resp).hsets
      = "0" :: ((natCkpts lines 0).map toString
          ++ progressWrites (uploadHsets url key resp).1) := by
  rw [runJob_ok_hsets, progressWrites_cons_some _ progressOf_initialHset,
    progressWrites_append, progressWrites_writeLoop]

/-- The checkpoint-value properties shared by every run shape. -/
theorem natCkpts_props (lines : List String) :
    (0 :: natCkpts lines 0).Pairwise (· ≤ ·)
      ∧ (∀ n ∈ 0 :: natCkpts lines 0, n ≤ 99)
      ∧ (∀ n ∈ 0 :: natCkpts lines 0,
          n = 0 ∨ n = 100 ∨ ∃ m, m % 50 = 0 ∧ 0 < m ∧ m ≤ lines.length ∧ n = min 99 m)
      ∧ (∀ m, m % 50 = 0 → 0 < m → m ≤ lines.length →
          min 99 m ∈ 0 :: natCkpts lines 0) := by
  refine ⟨?_, ?_, ?_, ?_⟩
  · exact List.pairwise_cons.mpr ⟨fun b _ => Nat.zero_le b, natCkpts_pairwise lines 0⟩
  · intro n hn
    rcases List.mem_cons.mp hn with rfl | hn
    · omega
    · exact (natCkpts_bounds n hn).2
  · intro n hn
    rcases List.mem_cons.mp hn with rfl | hn
    · exact Or.inl rfl
    · obtain ⟨m, h50, hlt, hle, heq⟩ := mem_natCkpts.mp hn
      exact Or.inr (Or.inr ⟨m, h50, by omega, by omega, heq⟩)
  · intro m h50 hm hle
    exact List.mem_cons_of_mem _ (mem_natCkpts.mpr ⟨m, h50, by omega, by omega, rfl⟩)

/-! ### Claims about the orchestrator -/

/-- C1: with remote upload configured, the job record is never set to
status=completed unless the upload succeeded (2xx status, JSON-object body,
non-blank file_id); and on a non-2xx upload status the record ends with
status=failed and the run raises. -/
theorem c1_upload_gating (er : Except String Unit) (url key : String)
    (lines : List String) (resp : UploadResp)
    (hcfg : pyStrip url ≠ "" ∧ pyStrip key ≠ "") :
    ((∃ h ∈ (runJob er url key lines resp).hsets, (Field.status, "completed") ∈ h)
        → uploadSucceeded resp)
      ∧ (¬ (200 ≤ resp.statusCode ∧ resp.statusCode < 300) →
          finalRec (runJob er url key lines resp) Field.status = some ("failed")
            ∧ ∃ e, (runJob er url key lines resp).result = .raised e) := by
  constructor
  · rintro ⟨h, hm, hc⟩
    cases er with
    | error e =>
      rw [runJob_error_eq] at hm
      rcases List.mem_cons.mp hm with rfl | hm
      · exact absurd hc (by decide)
      · rcases List.mem_cons.mp hm with rfl | hm
        · simp [failHset] at hc
        · simp at hm
    | ok u =>
      rw [runJob_ok_hsets] at hm
      rcases List.mem_cons.mp hm with rfl | hm
      · exact absurd hc (by decide)
      · rcases List.mem_append.mp hm with hm | hm
        · obtain ⟨n, rfl, _⟩ := mem_writeLoopHsets hm
          simp [ckptHset] at hc
        · exact uploadHsets_completed_mem hm hc
  · intro h2xx
    cases er with
    | error e =>
      refine ⟨?_, e, rfl⟩
      show applyTrace emptyRec [initialHset, failHset ("download_failed") e]
          Field.status = _
      rw [applyTrace_cons, applyTrace_singleton]
      exact (applyHset_failHset _ ("download_failed") e).1
    | ok u =>
      have hup : uploadHsets url key resp
          = ([failHset ("upload_failed") ("status_" ++ toString resp.statusCode)],
              .raised ("upload failed with status " ++ toString resp.statusCode)) := by
        unfold uploadHsets
        rw [if_neg (not_or.mpr hcfg), if_pos h2xx]
      have hup1 : (uploadHsets url key resp).1
          = [failHset ("upload_failed") ("status_" ++ toString resp.statusCode)] := by
        rw [hup]
      constructor
      · simp only [finalRec]
        rw [runJob_ok_hsets, hup1, applyTrace_cons, applyTrace_append, applyTrace_singleton]
        exact (applyHset_failHset _ _ _).1
      · refine ⟨"upload failed with status " ++ toString resp.statusCode, ?_⟩
        rw [runJob_ok_result, hup]

/-- C2 counterexample: with both the endpoint URL and the credential blank —
and even an upload response that would count as a success — the orchestrator
marks the job failed and raises instead of completing. -/
theorem c2_counterexample :
    finalRec (runJob (.ok ()) ("") ("") ([]) ⟨200, .dict (.str ("f"))⟩) Field.status
        = some ("failed")
      ∧ finalRec (runJob (.ok ()) ("") ("") ([]) ⟨200, .dict (.str ("f"))⟩) Field.status
          ≠ some ("completed")
      ∧ (runJob (.ok ()) ("") ("") ([]) ⟨200, .dict (.str ("f"))⟩).result
          = .raised ("data-bank configuration missing") := by
  refine ⟨by decide, by decide, rfl⟩

/-- C2 as amended: when both the endpoint URL and the credential are blank,
the orchestrator does not skip the upload step and complete; it marks the
job failed with message=upload_failed and error=config_missing, raises the
configuration-missing error, and never writes status=completed. -/
theorem c2_amended_config_missing (url key : String) (lines : List String)
    (resp : UploadResp) (hurl : pyStrip url = "") ( _hkey : pyStrip key = "") :
    finalRec (runJob (.ok ()) url key lines resp) Field.status = some ("failed")
      ∧ finalRec (runJob (.ok ()) url key lines resp) Field.message = some ("upload_failed")
      ∧ finalRec (runJob (.ok ()) url key lines resp) Field.error = some ("config_missing")
      ∧ (runJob (.ok ()) url key lines resp).result
          = .raised ("data-bank configuration missing")
      ∧ ∀ h ∈ (runJob (.ok ()) url key lines resp).hsets, (Field.status, "completed") ∉ h := by
  have hup : uploadHsets url key resp
      = ([failHset ("upload_failed") ("config_missing")],
          .raised ("data-bank configuration missing")) := by
    unfold uploadHsets
    rw [if_pos (Or.inl hurl)]
  have hup1 : (uploadHsets url key resp).1
      = [failHset ("upload_failed") ("config_missing")] := by
    rw [hup]
  refine ⟨?_, ?_, ?_, ?_, ?_⟩
  · simp only [finalRec]
    rw [runJob_ok_hsets, hup1, applyTrace_cons, applyTrace_append, applyTrace_singleton]
    exact (applyHset_failHset _ _ _).1
  · simp only [finalRec]
    rw [runJob_ok_hsets, hup1, applyTrace_cons, applyTrace_append, applyTrace_singleton]
    exact (applyHset_failHset _ _ _).2.1
  · simp only [finalRec]
    rw [runJob_ok_hsets, hup1, applyTrace_cons, applyTrace_append, applyTrace_singleton]
    exact (applyHset_failHset _ _ _).2.2.1
  · rw [runJob_ok_result, hup]
  · intro h hm hc
    rw [runJob_ok_hsets, hup1] at hm
    rcases List.mem_cons.mp hm with rfl | hm
    · exact absurd hc (by decide)
    · rcases List.mem_append.mp hm with hm | hm
      · obtain ⟨n, rfl, _⟩ := mem_writeLoopHsets hm
        simp [ckptHset] at hc
      · rcases List.mem_cons.mp hm with rfl | hm
        · simp [failHset] at hc
        · simp at hm

/-- C9: within one run the progress values written to the job record are
monotonically non-decreasing, start at 0, stay at most 99 until the terminal
completed transition writes 100, and every non-initial non-terminal value is
a checkpoint `min 99 m` taken exactly at the line counts `m` that are
positive multiples of 50. -/
theorem c9_progress_monotone (er : Except String Unit) (url key : String)
    (lines : List String) (resp : UploadResp) :
    ∃ ns : List Nat,
      progressWrites (runJob er url key lines resp).hsets = ns.map toString
        ∧ ns.Pairwise (· ≤ ·)
        ∧ ns.head? = some 0
        ∧ ((runJob er url key lines resp).result = .completed →
            ∃ ms, ns = ms ++ [100] ∧ ∀ n ∈ ms, n ≤ 99)
        ∧ ((runJob er url key lines resp).result ≠ .completed → ∀ n ∈ ns, n ≤ 99)
        ∧ (∀ n ∈ ns, n = 0 ∨ n = 100
            ∨ ∃ m, m % 50 = 0 ∧ 0 < m ∧ m ≤ lines.length ∧ n = min 99 m)
        ∧ (er = .ok () → ∀ m, m % 50 = 0 → 0 < m → m ≤ lines.length →
            toString (min 99 m) ∈ progressWrites (runJob er url key lines resp).hsets) := by
  obtain ⟨hpair, hle99, hchar, hcompl⟩ := natCkpts_props lines
  cases er with
  | error e =>
    refine ⟨[0], ?_, ?_, rfl, ?_, ?_, ?_, ?_⟩
    · rw [runJob_error_eq]
      rw [progressWrites_cons_some _ progressOf_initialHset,
        progressWrites_cons_none _ (progressOf_failHset _ _)]
      rfl
    · simp
    · intro hcomp
      rw [runJob_error_eq] at hcomp
      simp at hcomp
    · intro _ n hn
      rw [List.mem_singleton] at hn
      omega
    · intro n hn
      rw [List.mem_singleton] at hn
      exact Or.inl hn
    · intro hok
      simp at hok
  | ok u =>
    rcases uploadHsets_cases url key resp with ⟨⟨m, e, h1⟩, hraise⟩ | ⟨h1, hraise⟩
      | ⟨⟨fid, h1⟩, h2, hok⟩
    · have hpw0 : progressWrites (uploadHsets url key resp).1 = [] := by
        rw [h1, progressWrites_cons_none _ (progressOf_failHset _ _)]
        rfl
      have hpw := progressWrites_runJob_ok u url key lines resp
      rw [hpw0, List.append_nil] at hpw
      refine ⟨0 :: natCkpts lines 0, hpw, hpair, rfl, ?_, fun _ => hle99, hchar, ?_⟩
      · intro hcomp
        obtain ⟨msg, hmsg⟩ := hraise
        rw [runJob_ok_result, hmsg] at hcomp
        simp at hcomp
      · intro _ m' h50 hm hl
        rw [hpw]
        exact List.mem_map_of_mem toString (hcompl m' h50 hm hl)
    · have hpw0 : progressWrites (uploadHsets url key resp).1 = [] := by
        rw [h1]
        rfl
      have hpw := progressWrites_runJob_ok u url key lines resp
      rw [hpw0, List.append_nil] at hpw
      refine ⟨0 :: natCkpts lines 0, hpw, hpair, rfl, ?_, fun _ => hle99, hchar, ?_⟩
      · intro hcomp
        obtain ⟨msg, hmsg⟩ := hraise
        rw [runJob_ok_result, hmsg] at hcomp
        simp at hcomp
      · intro _ m' h50 hm hl
        rw [hpw]
        exact List.mem_map_of_mem toString (hcompl m' h50 hm hl)
    · have hpw0 : progressWrites (uploadHsets url key resp).1 = ["100"] := by
        rw [h1, progressWrites_cons_none _ (progressOf_fileIdHset _),
          progressWrites_cons_some _ progressOf_completedHset]
        rfl
      have hpw := progressWrites_runJob_ok u url key lines resp
      rw [hpw0] at hpw
      have hmap : (0 :: (natCkpts lines 0 ++ [100])).map toString
          = "0" :: ((natCkpts lines 0).map toString ++ ["100"]) := by
        rw [List.map_cons, List.map_append]
        rfl
      refine ⟨0 :: (natCkpts lines 0 ++ [100]), by rw [hpw, hmap], ?_, rfl, ?_, ?_, ?_, ?_⟩
      · refine List.pairwise_cons.mpr ⟨fun b _ => Nat.zero_le b, ?_⟩
        refine List.pairwise_append.mpr ⟨natCkpts_pairwise lines 0, by simp, ?_⟩
        intro a ha b hb
        rw [List.mem_singleton] at hb
        have := (natCkpts_bounds a ha).2
        omega
      · intro _
        refine ⟨0 :: natCkpts lines 0, rfl, hle99⟩
      · intro hne
        exact absurd (by rw [runJob_ok_result]; exact h2) hne
      · intro n hn
        rcases List.mem_cons.mp hn with rfl | hn
        · exact Or.inl rfl
        · rcases List.mem_append.mp hn with hn | hn
          · obtain ⟨m', h50, hlt, hlen, heq⟩ := mem_natCkpts.mp hn
            exact Or.inr (Or.inr ⟨m', h50, by omega, by omega, heq⟩)
          · rw [List.mem_singleton] at hn
            exact Or.inr (Or.inl hn)
      · intro _ m' h50 hm hl
        rw [hpw]
        have hmem := hcompl m' h50 hm hl
        rcases List.mem_cons.mp hmem with h0 | hmem
        · rw [h0]
          exact List.mem_cons_self _ _
        · exact List.mem_cons_of_mem _
            (List.mem_append_left _ (List.mem_map_of_mem toString hmem))

/-- C10: every failure transition (download failure and the four upload
failure kinds) writes exactly the status, updated_at, message and error
fields; in particular it leaves progress, file_id and upload_status
unchanged, so progress retains its last checkpointed value. -/
theorem c10_failure_frame (er : Except String Unit) (url key : String)
    (lines : List String) (resp : UploadResp) (r : Field → Option String) :
    ∀ h ∈ (runJob er url key lines resp).hsets, (Field.status, "failed") ∈ h →
      h.map Prod.fst = [Field.status, Field.updated_at, Field.message, Field.error]
        ∧ applyHset r h Field.progress = r Field.progress
        ∧ applyHset r h Field.file_id = r Field.file_id
        ∧ applyHset r h Field.upload_status = r Field.upload_status := by
  intro h hm hfail
  have hfh : ∃ m e, h = failHset m e := by
    cases er with
    | error e =>
      rw [runJob_error_eq] at hm
      rcases List.mem_cons.mp hm with rfl | hm
      · exact absurd hfail (by decide)
      · rcases List.mem_cons.mp hm with rfl | hm
        · exact ⟨_, _, rfl⟩
        · simp at hm
    | ok u =>
      rw [runJob_ok_hsets] at hm
      rcases List.mem_cons.mp hm with rfl | hm
      · exact absurd hfail (by decide)
      · rcases List.mem_append.mp hm with hm | hm
        · obtain ⟨n, rfl, _⟩ := mem_writeLoopHsets hm
          simp [ckptHset] at hfail
        · rcases uploadHsets_cases url key resp with ⟨⟨m, e, h1⟩, _⟩ | ⟨h1, _⟩
            | ⟨⟨fid, h1⟩, _, _⟩
          · rw [h1] at hm
            rw [List.mem_singleton] at hm
            exact ⟨_, _, hm⟩
          · rw [h1] at hm
            simp at hm
          · rw [h1] at hm
            rcases List.mem_cons.mp hm with rfl | hm
            · simp [fileIdHset] at hfail
            · rcases List.mem_cons.mp hm with rfl | hm
              · simp [completedHset] at hfail
              · simp at hm
  obtain ⟨m, e, rfl⟩ := hfh
  have hf := applyHset_failHset r m e
  exact ⟨rfl, hf.2.2.2.1, hf.2.2.2.2.1, hf.2.2.2.2.2⟩

/-! ### Witness instantiations -/

theorem c1_upload_gating_witness :
    ((∃ h ∈ (runJob (.ok ()) ("u") ("k") ([]) ⟨500, .nonDict⟩).hsets,
        (Field.status, "completed") ∈ h) → uploadSucceeded ⟨500, .nonDict⟩)
      ∧ (¬ ((200 : Nat) ≤ 500 ∧ (500 : Nat) < 300) →
          finalRec (runJob (.ok ()) ("u") ("k") ([]) ⟨500, .nonDict⟩) Field.status
              = some ("failed")
            ∧ ∃ e, (runJob (.ok ()) ("u") ("k") ([]) ⟨500, .nonDict⟩).result = .raised e) :=
  c1_upload_gating (.ok ()) ("u") ("k") ([]) ⟨500, .nonDict⟩ (by decide)

theorem c2_amended_config_missing_witness :
    finalRec (runJob (.ok ()) ("") ("") ([]) ⟨200, .nonDict⟩) Field.status = some ("failed")
      ∧ finalRec (runJob (.ok ()) ("") ("") ([]) ⟨200, .nonDict⟩) Field.error
          = some ("config_missing")
      ∧ (runJob (.ok ()) ("") ("") ([]) ⟨200, .nonDict⟩).result
          = .raised ("data-bank configuration missing") := by
  have h := c2_amended_config_missing ("") ("") ([]) ⟨200, .nonDict⟩ rfl rfl
  exact ⟨h.1, h.2.2.1, h.2.2.2.1⟩

theorem c3_idempotent_materialization_witness :
    ensure_corpus_file ⟨"oscar", "kk", 2, true, 0⟩ ("/data") none (some (["w"]))
        (["x"]) (fun _ => true)
      = ⟨.ok ("/data/corpus/oscar_kk.txt"), some (["w"]), false, false⟩ :=
  (c3_idempotent_materialization ⟨"oscar", "kk", 2, true, 0⟩ ("/data") none none
    (["x"]) (["x"]) (fun _ => true) (fun _ => true) (some (["w"]))).1 (["w"]) rfl

theorem c4_bounded_write_witness :
    (ensure_corpus_file ⟨"oscar", "kk", 2, true, 0⟩ ("/data") none none
          (["a", "b", "c"]) (fun _ => true)).fileAfter
        = some (((["a", "b", "c"]).take 2).map normalizeLine)
      ∧ ((ensure_corpus_file ⟨"oscar", "kk", 2, true, 0⟩ ("/data") none none
            (["a", "b", "c"]) (fun _ => true)).fileAfter.getD []).length
          = min 2 (["a", "b", "c"]).length :=
  c4_bounded_write ⟨"oscar", "kk", 2, true, 0⟩ ("/data") none (["a", "b", "c"])
    (fun _ => true) (["a", "b", "c"]) (by decide) (Or.inl rfl) rfl (by decide)

theorem c5_zero_result_cleanup_witness :
    (ensure_corpus_file ⟨"oscar", "kk", 2, true, 1⟩ ("/data") none none
          (["x"]) (fun _ => false)).result
        = .error ("No sentences were written for the requested corpus")
      ∧ (ensure_corpus_file ⟨"oscar", "kk", 2, true, 1⟩ ("/data") none none
            (["x"]) (fun _ => false)).fileAfter = none :=
  c5_zero_result_cleanup ⟨"oscar", "kk", 2, true, 1⟩ ("/data") none (["x"])
    (fun _ => false) (Or.inl rfl) rfl

theorem c6_filter_composition_witness :
    build_lang_script_filter (fun _ => (["__label__kaz_Cyrl"], [(1 : Rat)])) ("kk")
        (some ("cyrl")) 1 ("hello") = true
      ↔ "kk" = "kk"
          ∧ (normalizeScript (some ("cyrl")) = none
              ∨ some ("Cyrl") = normalizeScript (some ("cyrl")))
          ∧ (1 : Rat) ≤ 1 :=
  c6_filter_composition (fun _ => (["__label__kaz_Cyrl"], [(1 : Rat)])) ("kk")
    (some ("cyrl")) 1 ("hello") ("kk") (some ("Cyrl")) 1 (by decide) rfl

theorem c7_label_parsing_witness :
    splitLabel ("tr") = ("tr", none) ∧ langMap ("abc") = "abc" :=
  ⟨c7_label_parsing.2.1 ("tr") (by decide), c7_label_parsing.2.2.1 ("abc") (by decide)⟩

theorem c8_script_normalization_witness :
    normalizeScript (some ("  ")) = none
      ∧ validateScript (some ("xyz"))
          = .error ("Invalid script; expected Latn, Cyrl, or Arab") :=
  ⟨(c8_script_normalization.2.1 ("  ") (by decide)).1,
    c8_script_normalization.2.2.2.2.2.1 ("xyz") (by decide) (by decide) (by decide)
      (by decide)⟩

theorem c9_progress_monotone_witness :
    ∃ ns : List Nat,
      progressWrites (runJob (.ok ()) ("u") ("k") ([]) ⟨500, .nonDict⟩).hsets
          = ns.map toString
        ∧ ns.Pairwise (· ≤ ·)
        ∧ ns.head? = some 0
        ∧ ((runJob (.ok ()) ("u") ("k") ([]) ⟨500, .nonDict⟩).result = .completed →
            ∃ ms, ns = ms ++ [100] ∧ ∀ n ∈ ms, n ≤ 99)
        ∧ ((runJob (.ok ()) ("u") ("k") ([]) ⟨500, .nonDict⟩).result ≠ .completed →
            ∀ n ∈ ns, n ≤ 99)
        ∧ (∀ n ∈ ns, n = 0 ∨ n = 100
            ∨ ∃ m, m % 50 = 0 ∧ 0 < m ∧ m ≤ ([] : List String).length ∧ n = min 99 m)
        ∧ ((Except.ok () : Except String Unit) = .ok () →
            ∀ m, m % 50 = 0 → 0 < m → m ≤ ([] : List String).length →
              toString (min 99 m)
                ∈ progressWrites (runJob (.ok ()) ("u") ("k") ([]) ⟨500, .nonDict⟩).hsets) :=
  c9_progress_monotone (.ok ()) ("u") ("k") ([]) ⟨500, .nonDict⟩

theorem c10_failure_frame_witness :
    (failHset ("download_failed") ("RuntimeError")).map Prod.fst
        = [Field.status, Field.updated_at, Field.message, Field.error]
      ∧ applyHset emptyRec (failHset ("download_failed") ("RuntimeError")) Field.progress
          = emptyRec Field.progress
      ∧ applyHset emptyRec (failHset ("download_failed") ("RuntimeError")) Field.file_id
          = emptyRec Field.file_id
      ∧ applyHset emptyRec (failHset ("download_failed") ("RuntimeError")) Field.upload_status
          = emptyRec Field.upload_status :=
  c10_failure_frame (.error ("RuntimeError")) ("") ("") ([]) ⟨0, .nonDict⟩ emptyRec
    (failHset ("download_failed") ("RuntimeError")) (by decide) (by decide)

end TurkicApi
